import Mathlib

/-!
Verification of `libraryconvert.py` (convert_lib_for_echo_mini).

The Python program is shallowly embedded:
* strings are Lean `String` (Lean 4.14 strings are lists of unicode
  code points, as in Python), and Python's string comparison is modelled
  by an executable lexicographic comparison on the code-point lists;
* the filesystem is a finite tree of named directories (with a
  readability flag, since `os.walk` silently skips unreadable
  directories by default) and named regular files carrying an integer
  modification time;
* `main` is modelled as a function from the parsed arguments and the
  ambient world (filesystem trees, cpu count, the interactive
  confirmation answer, and the behaviour of the external converter
  command) to the list of observable events it performs plus an outcome
  (normal return, `exit(code)`, or an uncaught exception).
-/

/-! ### Python string comparison

Python compares strings lexicographically by unicode code point.
`charsLt` is that comparison on the underlying character lists; it is
structurally recursive, hence kernel-computable. -/

def charsLt : List Char → List Char → Bool
  | _, [] => false
  | [], _ :: _ => true
  | a :: as, b :: bs => decide (a < b) || (decide (a = b) && charsLt as bs)

def pyStrLt (a b : String) : Bool :=
  charsLt a.data b.data

def pyStrLe (a b : String) : Bool :=
  !pyStrLt b a

theorem charsLt_irrefl (l : List Char) : charsLt l l = false := by
  induction l with
  | nil => rfl
  | cons a as ih => simp [charsLt, ih, lt_irrefl]

theorem charsLt_asymm {l₁ l₂ : List Char} (h : charsLt l₁ l₂ = true) :
    charsLt l₂ l₁ = false := by
  induction l₁ generalizing l₂ with
  | nil =>
    cases l₂ with
    | nil => simp [charsLt] at h
    | cons b bs => rfl
  | cons a as ih =>
    cases l₂ with
    | nil => simp [charsLt] at h
    | cons b bs =>
      simp only [charsLt, Bool.or_eq_true, Bool.and_eq_true, decide_eq_true_eq] at h
      rcases h with h | ⟨rfl, h⟩
      · have h1 : ¬ b < a := lt_asymm h
        have h2 : b ≠ a := Ne.symm (ne_of_lt h)
        simp [charsLt, h1, h2]
      · simp [charsLt, lt_irrefl, ih h]

theorem charsLt_trans {l₁ l₂ l₃ : List Char} (h₁ : charsLt l₁ l₂ = true)
    (h₂ : charsLt l₂ l₃ = true) : charsLt l₁ l₃ = true := by
  induction l₁ generalizing l₂ l₃ with
  | nil =>
    cases l₃ with
    | nil =>
      cases l₂ with
      | nil => exact h₁
      | cons b bs => simp [charsLt] at h₂
    | cons c cs => rfl
  | cons a as ih =>
    cases l₂ with
    | nil => simp [charsLt] at h₁
    | cons b bs =>
      cases l₃ with
      | nil => simp [charsLt] at h₂
      | cons c cs =>
        simp only [charsLt, Bool.or_eq_true, Bool.and_eq_true, decide_eq_true_eq] at h₁ h₂ ⊢
        rcases h₁ with h₁ | ⟨rfl, h₁⟩
        · rcases h₂ with h₂ | ⟨rfl, h₂⟩
          · exact Or.inl (lt_trans h₁ h₂)
          · exact Or.inl h₁
        · rcases h₂ with h₂ | ⟨rfl, h₂⟩
          · exact Or.inl h₂
          · exact Or.inr ⟨rfl, ih h₁ h₂⟩

theorem charsLt_connex {l₁ l₂ : List Char} (h₁ : charsLt l₁ l₂ = false)
    (h₂ : charsLt l₂ l₁ = false) : l₁ = l₂ := by
  induction l₁ generalizing l₂ with
  | nil =>
    cases l₂ with
    | nil => rfl
    | cons b bs => simp [charsLt] at h₁
  | cons a as ih =>
    cases l₂ with
    | nil => simp [charsLt] at h₂
    | cons b bs =>
      simp only [charsLt, Bool.or_eq_false_iff, Bool.and_eq_false_iff,
        decide_eq_false_iff_not] at h₁ h₂
      have hab : a = b := le_antisymm (not_lt.mp h₂.1) (not_lt.mp h₁.1)
      subst hab
      rcases h₁.2 with h | h
      · simp at h
      · rcases h₂.2 with h2 | h2
        · simp at h2
        · rw [ih h h2]

theorem pyStrLt_irrefl (s : String) : pyStrLt s s = false :=
  charsLt_irrefl s.data

theorem pyStrLt_asymm {a b : String} (h : pyStrLt a b = true) :
    pyStrLt b a = false :=
  charsLt_asymm h

theorem pyStrLt_trans {a b c : String} (h₁ : pyStrLt a b = true)
    (h₂ : pyStrLt b c = true) : pyStrLt a c = true :=
  charsLt_trans h₁ h₂

theorem pyStrLt_connex {a b : String} (h₁ : pyStrLt a b = false)
    (h₂ : pyStrLt b a = false) : a = b := by
  cases a with
  | mk da =>
    cases b with
    | mk db =>
      have : da = db := charsLt_connex h₁ h₂
      rw [this]

/-- The strict order Python uses on the listings. -/
def sLt (a b : String) : Prop := pyStrLt a b = true

/-- The reflexive order Python uses on the listings. -/
def sLe (a b : String) : Prop := pyStrLe a b = true

instance : DecidableRel sLt := fun a b => instDecidableEqBool (pyStrLt a b) true

instance : DecidableRel sLe := fun a b => instDecidableEqBool (pyStrLe a b) true

theorem sLe_iff_not_sLt {a b : String} : sLe a b ↔ ¬ sLt b a := by
  unfold sLe sLt pyStrLe
  cases pyStrLt b a <;> simp

theorem sLe_antisymm {a b : String} (h₁ : sLe a b) (h₂ : sLe b a) : a = b := by
  unfold sLe pyStrLe at h₁ h₂
  apply pyStrLt_connex <;> [skip; skip] <;> simp_all

theorem sLe_trans {a b c : String} (h₁ : sLe a b) (h₂ : sLe b c) : sLe a c := by
  rw [sLe_iff_not_sLt] at h₁ h₂ ⊢
  intro hlt
  unfold sLt at h₁ h₂ hlt
  cases hcb : pyStrLt c b with
  | true => exact h₂ hcb
  | false =>
    cases hbc : pyStrLt b c with
    | true => exact h₁ (pyStrLt_trans hbc hlt)
    | false =>
      have hbceq : b = c := pyStrLt_connex hbc hcb
      subst hbceq
      exact h₁ hlt

theorem sLe_total (a b : String) : sLe a b ∨ sLe b a := by
  unfold sLe pyStrLe
  cases h : pyStrLt b a
  · simp
  · simp [pyStrLt_asymm h]

theorem sLt_asymm {a b : String} (h : sLt a b) : ¬ sLt b a := by
  unfold sLt at *
  simp [pyStrLt_asymm h]

instance : IsTotal String sLe := ⟨sLe_total⟩

instance : IsTrans String sLe := ⟨fun _ _ _ => sLe_trans⟩

instance : IsAntisymm String sLe := ⟨fun _ _ => sLe_antisymm⟩

/-- Python's `list.sort()` on a list of strings: a stable comparison sort,
ascending.  Modelled by insertion sort over the Python string order. -/
def pySort (l : List String) : List String :=
  List.insertionSort sLe l

theorem pySort_perm (l : List String) : List.Perm (pySort l) l :=
  List.perm_insertionSort sLe l

theorem pySort_sorted (l : List String) : List.Sorted sLe (pySort l) :=
  List.sorted_insertionSort sLe l

/-- Sorting is canonical: two lists with the same multiset of elements
sort to the same result.  This is why the output of the path classifier
does not depend on the order in which `os.walk` visits directories. -/
theorem pySort_eq_of_perm {l₁ l₂ : List String} (h : List.Perm l₁ l₂) :
    pySort l₁ = pySort l₂ :=
  List.eq_of_perm_of_sorted (((pySort_perm l₁).trans h).trans (pySort_perm l₂).symm)
    (pySort_sorted l₁) (pySort_sorted l₂)

/-! ### `os.path.splitext`, `replace_ext`, `ext`

CPython's `posixpath.splitext(p)` finds the last `.` in `p`; if it lies
after the last `/` and the part of the final path component before it is
not entirely dots, the path splits there, otherwise the extension is
empty.  `splitextChars` is that computation on the code-point list. -/

def splitextChars (p : List Char) : List Char × List Char :=
  let rev := p.reverse
  let extTail := rev.takeWhile (fun c => !(c == '.') && !(c == '/'))
  match rev.dropWhile (fun c => !(c == '.') && !(c == '/')) with
  | '.' :: stemRev =>
    if (stemRev.takeWhile (fun c => !(c == '/'))).any (fun c => !(c == '.')) then
      (stemRev.reverse, '.' :: extTail.reverse)
    else (p, [])
  | _ => (p, [])

def splitext (p : String) : String × String :=
  ((splitextChars p.data).1.asString, (splitextChars p.data).2.asString)

/-- Source: `replace_ext(fp, ext) = os.path.splitext(fp)[0] + ext`. -/
def replace_ext (fp : String) (e : String) : String :=
  (splitext fp).1 ++ e

/-- Source: `ext(fp) = os.path.splitext(fp)[1]`  (named `ext` in the code). -/
def pyExt (fp : String) : String :=
  (splitext fp).2

/-! ### The filesystem model

A directory carries a readability flag (`os.walk` with the default
`onerror=None` silently ignores the `scandir` error on an unreadable
directory, yielding nothing for it and not descending), a list of
regular files `(name, mtime)`, and a forest of named subdirectories. -/

mutual
inductive FSTree where
  | mk (readable : Bool) (files : List (String × Int)) (subdirs : FSForest)
inductive FSForest where
  | nil
  | cons (name : String) (tree : FSTree) (rest : FSForest)
end

/-- One file found by `os.walk`: the path components of its directory
relative to the walk root, and its filename. -/
abbrev WalkEntry := List String × String

mutual
/-- All `(dirpath-components, filename)` pairs produced by walking the
tree, as in `for dirpath, dirnames, filenames in os.walk(dir)`.
An unreadable directory contributes nothing at all. -/
def FSTree.walkEntries : FSTree → List WalkEntry
  | .mk readable files subdirs =>
    if readable then
      files.map (fun f => ([], f.1)) ++ subdirs.walkEntries
    else []
def FSForest.walkEntries : FSForest → List WalkEntry
  | .nil => []
  | .cons name tree rest =>
    (tree.walkEntries.map (fun e => (name :: e.1, e.2))) ++ rest.walkEntries
end

/-- `os.path.relpath(os.path.join(dirpath, f), dir)`: the path of a walk
entry relative to the walk root, joined with `/`. -/
def entryPath (e : WalkEntry) : String :=
  e.1.foldr (fun d acc => d ++ "/" ++ acc) e.2

/-- Source, lines 73-81:
`out = [relpath(join(dirpath, f), dir) for dirpath, _, filenames in
os.walk(dir) for f in filenames if ext(f) in filter_exts]; out.sort()`. -/
def sorted_filtered_paths (dir : FSTree) (filter_exts : List String) : List String :=
  pySort ((dir.walkEntries.filter (fun e => filter_exts.contains (pyExt e.2))).map entryPath)

/-! Modification-time lookup (`os.path.getmtime(join(root, relpath))`).
The relative path is split back into components; a missing file yields a
default of `0` (in the program, `getmtime` is only applied to paths that
were just listed, so the default is never observable). -/

def splitChar (sep : Char) : List Char → List (List Char)
  | [] => [[]]
  | c :: cs =>
    match splitChar sep cs with
    | [] => [[c]]
    | h :: t => if c = sep then [] :: h :: t else (c :: h) :: t

def splitStr (sep : Char) (s : String) : List String :=
  (splitChar sep s.data).map List.asString

mutual
def FSTree.findMtime : FSTree → List String → Option Int
  | .mk _ files _, [n] => (files.find? (fun f => f.1 == n)).map (fun f => f.2)
  | .mk _ _ subdirs, n :: rest => FSForest.findMtime subdirs n rest
  | _, [] => none
def FSForest.findMtime : FSForest → String → List String → Option Int
  | .nil, _, _ => none
  | .cons name tree others, n, rest =>
    if name == n then tree.findMtime rest else FSForest.findMtime others n rest
end

def pathMtime (t : FSTree) (p : String) : Int :=
  (t.findMtime (splitStr '/' p)).getD 0

/-! ### The tree differ (`operations_to_sync`, lines 83-128)

`opsLoop` is the literal translation of the two-pointer while loop
(lines 96-126 plus the two leftover loops): `f` is the extension remap
applied to the source side before comparing, `st` the staleness test of
the equal branch.  `mergeOps`/`mergeInner` is the same computation as a
structural recursion (outer recursion consumes the source listing, inner
recursion the destination listing), which the kernel can evaluate;
`opsLoop_eq_mergeOps` proves the two agree. -/

def mergeInner (f : String → String) (st : String → String → Bool) (s : String)
    (ss : List String) (recSS : List String → List String × List String) :
    List String → List String × List String
  | [] => (s :: ss, [])
  | d :: ds =>
    if f s = d then
      let r := recSS ds
      (if st s d then s :: r.1 else r.1, r.2)
    else if pyStrLt d (f s) then
      let r := mergeInner f st s ss recSS ds
      (r.1, d :: r.2)
    else
      let r := recSS (d :: ds)
      (s :: r.1, r.2)

def mergeOps (f : String → String) (st : String → String → Bool) :
    List String → List String → List String × List String
  | [] => fun ds => ([], ds)
  | s :: ss => mergeInner f st s ss (mergeOps f st ss)

def opsLoop (f : String → String) (st : String → String → Bool)
    (src_fps dest_fps : List String) (src_i dest_i : Nat) :
    List String × List String :=
  if h : src_i < src_fps.length ∧ dest_i < dest_fps.length then
    let src_fp := src_fps.get ⟨src_i, h.1⟩
    let dest_fp := dest_fps.get ⟨dest_i, h.2⟩
    let src_fp_srt := f src_fp
    if src_fp_srt = dest_fp then
      let r := opsLoop f st src_fps dest_fps (src_i + 1) (dest_i + 1)
      (if st src_fp dest_fp then src_fp :: r.1 else r.1, r.2)
    else if pyStrLt dest_fp src_fp_srt then
      let r := opsLoop f st src_fps dest_fps src_i (dest_i + 1)
      (r.1, dest_fp :: r.2)
    else
      let r := opsLoop f st src_fps dest_fps (src_i + 1) dest_i
      (src_fp :: r.1, r.2)
  else
    (src_fps.drop src_i, dest_fps.drop dest_i)
termination_by (src_fps.length - src_i) + (dest_fps.length - dest_i)
decreasing_by
  all_goals omega

theorem opsLoop_eq_mergeOps (f : String → String) (st : String → String → Bool)
    (src_fps dest_fps : List String) (src_i dest_i : Nat) :
    opsLoop f st src_fps dest_fps src_i dest_i =
      mergeOps f st (src_fps.drop src_i) (dest_fps.drop dest_i) := by
  induction src_i, dest_i using opsLoop.induct f st src_fps dest_fps with
  | case1 src_i dest_i h s d fs hEq ih =>
    unfold_let s d fs at hEq
    rw [opsLoop, dif_pos h, if_pos hEq, ih,
      List.drop_eq_getElem_cons h.1, List.drop_eq_getElem_cons h.2]
    simp only [mergeOps, mergeInner, List.get_eq_getElem]
    simp only [List.get_eq_getElem] at hEq
    rw [if_pos hEq]
  | case2 src_i dest_i h s d fs hNe hLt ih =>
    unfold_let s d fs at hNe hLt
    rw [opsLoop, dif_pos h, if_neg hNe, if_pos hLt, ih,
      List.drop_eq_getElem_cons h.1, List.drop_eq_getElem_cons h.2]
    simp only [mergeOps, mergeInner, List.get_eq_getElem]
    simp only [List.get_eq_getElem] at hNe hLt
    rw [if_neg hNe, if_pos hLt]
  | case3 src_i dest_i h s d fs hNe hNlt ih =>
    unfold_let s d fs at hNe hNlt
    rw [opsLoop, dif_pos h, if_neg hNe, if_neg hNlt, ih,
      List.drop_eq_getElem_cons h.1, List.drop_eq_getElem_cons h.2]
    simp only [mergeOps, mergeInner, List.get_eq_getElem]
    simp only [List.get_eq_getElem] at hNe hNlt
    rw [if_neg hNe, if_neg hNlt]
  | case4 src_i dest_i h =>
    rw [opsLoop, dif_neg h]
    rcases Nat.lt_or_ge src_i src_fps.length with hs | hs
    · have hd : dest_fps.length ≤ dest_i := by
        rcases Nat.lt_or_ge dest_i dest_fps.length with hd | hd
        · exact absurd ⟨hs, hd⟩ h
        · exact hd
      rw [List.drop_eq_getElem_cons hs, List.drop_eq_nil_of_le hd]
      simp [mergeOps, mergeInner]
    · rw [List.drop_eq_nil_of_le hs]
      simp [mergeOps]

/-- `[dest_ext] if dest_ext else exts` (line 92; Python truthiness:
`None` and the empty string both select `exts`). -/
def destFilterExts (exts : List String) : Option String → List String
  | some e => if e = "" then exts else [e]
  | none => exts

/-- The remap applied to a source path before comparison (lines 99-100):
`if dest_ext: src_fp_srt = replace_ext(src_fp_srt, dest_ext)`. -/
def remapFn (dest_ext : Option String) (s : String) : String :=
  match dest_ext with
  | some e => if e = "" then s else replace_ext s e
  | none => s

/-- The staleness test of the equal branch (lines 105-108):
`(not args.ignore_mtime) and getmtime(join(src, src_fp)) >
getmtime(join(dest, dest_fp))`. -/
def staleFn (src dest : FSTree) (ignore_mtime : Bool) (s d : String) : Bool :=
  !ignore_mtime && decide (pathMtime src s > pathMtime dest d)

/-- Source, lines 83-128: the differ.  Returns `(create, delete)`. -/
def operations_to_sync (src dest : FSTree) (ignore_mtime : Bool)
    (exts : List String) (dest_ext : Option String) : List String × List String :=
  if exts.isEmpty then ([], [])
  else
    let src_fps := sorted_filtered_paths src exts
    let dest_fps := sorted_filtered_paths dest (destFilterExts exts dest_ext)
    opsLoop (remapFn dest_ext) (staleFn src dest ignore_mtime) src_fps dest_fps 0 0

theorem operations_to_sync_eq (src dest : FSTree) (ignore_mtime : Bool)
    (exts : List String) (dest_ext : Option String) :
    operations_to_sync src dest ignore_mtime exts dest_ext =
      if exts.isEmpty then ([], [])
      else
        mergeOps (remapFn dest_ext) (staleFn src dest ignore_mtime)
          (sorted_filtered_paths src exts)
          (sorted_filtered_paths dest (destFilterExts exts dest_ext)) := by
  unfold operations_to_sync
  rw [opsLoop_eq_mergeOps]
  simp

/-! ### The `main` model (lines 130-201) and `worker` (lines 40-71)

`main` is modelled as a pure function from the parsed arguments and the
ambient world to the list of observable events it performs, in program
order, together with an outcome.  Thread scheduling only interleaves the
per-job event blocks of the conversion stage; the model lists them in
queue (FIFO) order, which is exact for one worker and event-multiset
faithful in general. -/

/-- Source, lines 13-17: `ensure_dot_prefix`.  Python's `s[0]` raises
`IndexError` on the empty string; the exception is modelled by `none`. -/
def ensure_dot_prefix (s : String) : Option String :=
  match s.data with
  | [] => none
  | c :: _ => if c = '.' then some s else some (String.mk ('.' :: s.data))

/-- The list comprehension `[ensure_dot_prefix(e) for e in l]` (lines
141-143), evaluated left to right; an `IndexError` from any element
aborts the whole run (modelled by `none`). -/
def normalizeExts : List String → Option (List String)
  | [] => some []
  | x :: xs =>
    match ensure_dot_prefix x, normalizeExts xs with
    | some y, some ys => some (y :: ys)
    | _, _ => none

/-- Source, lines 135-138: the effective worker count.
`if args.jobs <= 0: args.jobs += os.cpu_count()`;
`if args.jobs <= 0: args.jobs = 1`. -/
def effectiveJobs (jobs : Int) (cpu_count : Nat) : Int :=
  let j := if jobs ≤ 0 then jobs + cpu_count else jobs
  if j ≤ 0 then 1 else j

/-- `os.path.split(p)[0]` on a POSIX path: everything before the last
slash, trailing slashes stripped unless the head is entirely slashes. -/
def dirname (p : String) : String :=
  let headRev := p.data.reverse.dropWhile (fun c => !(c == '/'))
  if headRev.all (fun c => c == '/') then headRev.reverse.asString
  else (headRev.dropWhile (fun c => c == '/')).reverse.asString

/-- `posixpath.join(a, b)`. -/
def joinPath (a b : String) : String :=
  if b.data.head? = some '/' then b
  else if a.data = [] then b
  else if a.data.getLast? = some '/' then a ++ b
  else a ++ "/" ++ b

/-- Source, lines 46-51: replace each argument equal to `"@source"` by the
source path, each argument equal to `"@dest"` by the destination path. -/
def substCmd (cmd : List String) (src_fp dest_fp : String) : List String :=
  cmd.map (fun t => if t = "@source" then src_fp else if t = "@dest" then dest_fp else t)

/-- The parsed command-line arguments (the argparse surface, lines 205-218). -/
structure Args where
  jobs : Int
  dry_run : Bool
  noconfirm : Bool
  verbose : Bool
  from_exts : String
  to_ext : String
  copy_exts : Option String
  ignore_mtime : Bool
  SOURCE : String
  DEST : String
  CONVERT_CMD : List String

/-- Observable events of a run.  `removedirsIfEmpty d` models
`if dir_empty(d): os.removedirs(d)` (lines 169-171) as one event against
the live filesystem; `echoCmd` models printing the shell-quoted command
line (`shlex.join`, line 55); `runCmd` is the `subprocess.run` call. -/
inductive Event where
  | print (s : String)
  | confirmPrompt
  | remove (path : String)
  | removedirsIfEmpty (dir : String)
  | makedirs (dir : String)
  | copyFile (src dest : String)
  | spawnWorkers (n : Int)
  | echoCmd (cmd : List String)
  | runCmd (cmd : List String)
deriving DecidableEq

inductive Outcome where
  | ok
  | exited (code : Nat)
  | raised
deriving DecidableEq

/-- Per-file events of the delete loop, lines 164-171.  Note the print
comes first and the mutation is skipped under `--dry-run`. -/
def deleteEvents (a : Args) (rel_fp : String) : List Event :=
  let fp := joinPath a.DEST rel_fp
  [.print ("Removing:" ++ fp)] ++
    (if a.dry_run then [] else [.remove fp, .removedirsIfEmpty (dirname fp)])

/-- Per-file events of the copy loop, lines 173-179.  The `os.makedirs`
call (line 177) precedes the `if args.dry_run: continue` check (line 178),
so it happens even under `--dry-run`; only `shutil.copy` is skipped. -/
def copyEvents (a : Args) (rel_fp : String) : List Event :=
  let src_fp := joinPath a.SOURCE rel_fp
  let dest_fp := joinPath a.DEST rel_fp
  [.print ("Copying:" ++ src_fp), .makedirs (dirname dest_fp)] ++
    (if a.dry_run then [] else [.copyFile src_fp dest_fp])

/-- Per-job events of `worker`, lines 40-71: substitute the command,
then either echo it (`--dry-run`) or create the destination directory,
run it and print its captured output on failure or under `--verbose`.
`exec` gives the external command's exit status and combined output. -/
def workerEvents (a : Args) (to_ext : String) (exec : List String → Int × String)
    (rel_fp : String) : List Event :=
  let src_fp := joinPath a.SOURCE rel_fp
  let dest_fp := joinPath a.DEST (replace_ext rel_fp to_ext)
  let cmd := substCmd a.CONVERT_CMD src_fp dest_fp
  if a.dry_run then [.echoCmd cmd]
  else
    let r := exec cmd
    [.print ("Converting:" ++ src_fp), .makedirs (dirname dest_fp), .runCmd cmd] ++
      (if decide (r.1 ≠ 0) || a.verbose then [.print r.2] else [])

/-- Source, lines 130-201: `main`.  `srcTree`/`destTree` give the
filesystem contents under `args.SOURCE`/`args.DEST`, `cpu` is
`os.cpu_count()`, `confirmAnswer` the eventual reply to `user_confirm()`,
and `exec` the behaviour of the external converter. -/
def mainModel (a : Args) (srcTree destTree : FSTree) (cpu : Nat)
    (confirmAnswer : Bool) (exec : List String → Int × String) :
    List Event × Outcome :=
  if "@source" ∈ a.CONVERT_CMD ∧ "@dest" ∈ a.CONVERT_CMD then
    let jobs := effectiveJobs a.jobs cpu
    match ensure_dot_prefix a.to_ext with
    | none => ([], .raised)
    | some to_ext =>
      match normalizeExts (splitStr ',' a.from_exts) with
      | none => ([], .raised)
      | some from_exts =>
        match (match a.copy_exts with
               | some ce =>
                 if ce = "" then some []
                 else normalizeExts (splitStr ',' ce)
               | none => some ([] : List String)) with
        | none => ([], .raised)
        | some copy_exts =>
          let conv := operations_to_sync srcTree destTree a.ignore_mtime
            from_exts (some to_ext)
          let cpy := operations_to_sync srcTree destTree a.ignore_mtime
            copy_exts none
          let files_to_convert := conv.1
          let files_to_copy := cpy.1
          let files_to_delete := conv.2 ++ cpy.2
          let planEvents :=
            files_to_delete.map (fun f => Event.print ("delete :" ++ f)) ++
            files_to_copy.map (fun f => Event.print ("copy   :" ++ f)) ++
            files_to_convert.map (fun f => Event.print ("convert:" ++ f))
          let gate :=
            if a.dry_run then (planEvents ++ [Event.print "-----DRY-RUN-----"], true)
            else if a.noconfirm then (planEvents ++ [Event.print "-----SYNCING-----"], true)
            else if confirmAnswer then
              (planEvents ++ [Event.confirmPrompt, Event.print "-----SYNCING-----"], true)
            else (planEvents ++ [Event.confirmPrompt], false)
          if gate.2 then
            (gate.1 ++
              files_to_delete.flatMap (deleteEvents a) ++
              files_to_copy.flatMap (copyEvents a) ++
              [Event.spawnWorkers jobs] ++
              files_to_convert.flatMap (workerEvents a to_ext exec), .ok)
          else (gate.1, .ok)
  else
    ([.print "Error: CONVERT_CMD does not contain '@source' and '@dest'"], .exited 1)

/-! ### Structural lemmas about the differ

The create list only contains source entries and the delete list only
destination entries; and, provided the remap keeps the source listing
sorted and fixes every destination entry, the two lists are disjoint. -/

theorem mergeOps_cons_cons (f : String → String) (st : String → String → Bool)
    (s d : String) (ss ds : List String) :
    mergeOps f st (s :: ss) (d :: ds) =
      if f s = d then
        ((if st s d then s :: (mergeOps f st ss ds).1 else (mergeOps f st ss ds).1),
         (mergeOps f st ss ds).2)
      else if pyStrLt d (f s) then
        ((mergeOps f st (s :: ss) ds).1, d :: (mergeOps f st (s :: ss) ds).2)
      else
        (s :: (mergeOps f st ss (d :: ds)).1, (mergeOps f st ss (d :: ds)).2) := by
  simp only [mergeOps, mergeInner]

theorem mergeInner_create_subset (f : String → String) (st : String → String → Bool)
    (s : String) (ss : List String)
    (recSS : List String → List String × List String)
    (hrec : ∀ ds x, x ∈ (recSS ds).1 → x ∈ ss) :
    ∀ ds x, x ∈ (mergeInner f st s ss recSS ds).1 → x ∈ s :: ss := by
  intro ds
  induction ds with
  | nil =>
    intro x hx
    simp only [mergeInner] at hx
    exact hx
  | cons d ds ih =>
    intro x hx
    simp only [mergeInner] at hx
    by_cases heq : f s = d
    · rw [if_pos heq] at hx
      simp only at hx
      by_cases hst : st s d = true
      · rw [if_pos hst] at hx
        rcases List.mem_cons.mp hx with h | h
        · exact h ▸ List.mem_cons_self s ss
        · exact List.mem_cons_of_mem s (hrec ds x h)
      · rw [if_neg hst] at hx
        exact List.mem_cons_of_mem s (hrec ds x hx)
    · rw [if_neg heq] at hx
      by_cases hlt : pyStrLt d (f s) = true
      · rw [if_pos hlt] at hx
        simp only at hx
        exact ih x hx
      · rw [if_neg hlt] at hx
        simp only at hx
        rcases List.mem_cons.mp hx with h | h
        · exact h ▸ List.mem_cons_self s ss
        · exact List.mem_cons_of_mem s (hrec (d :: ds) x h)

theorem mergeInner_delete_subset (f : String → String) (st : String → String → Bool)
    (s : String) (ss : List String)
    (recSS : List String → List String × List String)
    (hrec : ∀ ds x, x ∈ (recSS ds).2 → x ∈ ds) :
    ∀ ds x, x ∈ (mergeInner f st s ss recSS ds).2 → x ∈ ds := by
  intro ds
  induction ds with
  | nil =>
    intro x hx
    simp only [mergeInner] at hx
    simp at hx
  | cons d ds ih =>
    intro x hx
    simp only [mergeInner] at hx
    by_cases heq : f s = d
    · rw [if_pos heq] at hx
      simp only at hx
      exact List.mem_cons_of_mem d (hrec ds x hx)
    · rw [if_neg heq] at hx
      by_cases hlt : pyStrLt d (f s) = true
      · rw [if_pos hlt] at hx
        simp only at hx
        rcases List.mem_cons.mp hx with h | h
        · exact h ▸ List.mem_cons_self d ds
        · exact List.mem_cons_of_mem d (ih x h)
      · rw [if_neg hlt] at hx
        simp only at hx
        exact hrec (d :: ds) x hx

theorem mergeOps_create_subset (f : String → String) (st : String → String → Bool) :
    ∀ (S D : List String) (x : String), x ∈ (mergeOps f st S D).1 → x ∈ S := by
  intro S
  induction S with
  | nil =>
    intro D x hx
    simp [mergeOps] at hx
  | cons s ss ih =>
    intro D x hx
    exact mergeInner_create_subset f st s ss (mergeOps f st ss)
      (fun ds y hy => ih ds y hy) D x hx

theorem mergeOps_delete_subset (f : String → String) (st : String → String → Bool) :
    ∀ (S D : List String) (x : String), x ∈ (mergeOps f st S D).2 → x ∈ D := by
  intro S
  induction S with
  | nil =>
    intro D x hx
    simpa [mergeOps] using hx
  | cons s ss ih =>
    intro D x hx
    exact mergeInner_delete_subset f st s ss (mergeOps f st ss)
      (fun ds y hy => ih ds y hy) D x hx

theorem mergeOps_disjoint (f : String → String) (st : String → String → Bool) :
    ∀ (S : List String), List.Sorted sLt S → List.Sorted sLe (S.map f) →
      ∀ (D : List String), List.Sorted sLt D → (∀ d ∈ D, f d = d) →
        ∀ x, x ∈ (mergeOps f st S D).1 → x ∈ (mergeOps f st S D).2 → False := by
  intro S
  induction S with
  | nil =>
    intro _ _ D _ _ x hc _
    simp [mergeOps] at hc
  | cons s ss ih =>
    intro hS hm D
    induction D with
    | nil =>
      intro _ _ x _ hd
      simp [mergeOps, mergeInner] at hd
    | cons d ds ihD =>
      intro hD hfix x hc hd
      rw [mergeOps_cons_cons] at hc hd
      have hS' : List.Sorted sLt ss := (List.sorted_cons.mp hS).2
      have hm' : List.Sorted sLe (ss.map f) := by
        rw [List.map_cons] at hm
        exact (List.sorted_cons.mp hm).2
      have hmTop : ∀ y ∈ ss, sLe (f s) (f y) := by
        rw [List.map_cons] at hm
        intro y hy
        exact (List.sorted_cons.mp hm).1 (f y) (List.mem_map_of_mem f hy)
      have hD' : List.Sorted sLt ds := (List.sorted_cons.mp hD).2
      have hDTop : ∀ y ∈ ds, sLt d y := (List.sorted_cons.mp hD).1
      have hfix' : ∀ y ∈ ds, f y = y := fun y hy => hfix y (List.mem_cons_of_mem d hy)
      by_cases heq : f s = d
      · rw [if_pos heq] at hc hd
        simp only at hc hd
        have hxds : x ∈ ds := mergeOps_delete_subset f st ss ds x hd
        by_cases hst : st s d = true
        · rw [if_pos hst] at hc
          rcases List.mem_cons.mp hc with rfl | hc
          · have hfx : f x = x := hfix' x hxds
            have hxd : x = d := by rw [← hfx, heq]
            have h1 : sLt d x := hDTop x hxds
            rw [← hxd] at h1
            exact absurd h1 (by simp [sLt, pyStrLt_irrefl])
          · exact ih hS' hm' ds hD' hfix' x hc hd
        · rw [if_neg hst] at hc
          exact ih hS' hm' ds hD' hfix' x hc hd
      · rw [if_neg heq] at hc hd
        by_cases hlt : pyStrLt d (f s) = true
        · rw [if_pos hlt] at hc hd
          simp only at hc hd
          rcases List.mem_cons.mp hd with rfl | hd
          · have hxs : x ∈ s :: ss := mergeOps_create_subset f st (s :: ss) ds x hc
            have hfx : f x = x := hfix x (List.mem_cons_self x ds)
            rcases List.mem_cons.mp hxs with rfl | hxs
            · exact heq hfx
            · have : sLe (f s) x := by
                have := hmTop x hxs
                rwa [hfx] at this
              rw [sLe_iff_not_sLt] at this
              exact this hlt
          · exact ihD hD' hfix' x hc hd
        · rw [if_neg hlt] at hc hd
          simp only at hc hd
          rcases List.mem_cons.mp hc with rfl | hc
          · have hxd : x ∈ d :: ds := mergeOps_delete_subset f st ss (d :: ds) x hd
            have hfx : f x = x := hfix x hxd
            rcases List.mem_cons.mp hxd with rfl | hxds
            · exact heq hfx
            · have h1 : sLt d x := hDTop x hxds
              rw [hfx] at hlt
              exact hlt h1
          · exact ih hS' hm' (d :: ds) hD hfix x hc hd

theorem normalizeExts_none {l : List String} (h : "" ∈ l) :
    normalizeExts l = none := by
  induction l with
  | nil => simp at h
  | cons x xs ih =>
    rcases List.mem_cons.mp h with rfl | hmem
    · rfl
    · unfold normalizeExts
      rw [ih hmem]
      cases ensure_dot_prefix x <;> rfl

theorem staleFn_eq_true_iff {src dest : FSTree} {ign : Bool} {s d : String} :
    staleFn src dest ign s d = true ↔
      (ign = false ∧ pathMtime src s > pathMtime dest d) := by
  unfold staleFn
  cases ign <;> simp

/-! ### The claims -/

/-- C1: on sorted listings, the differ loop is a two-pointer merge: if the
remapped source entry is greater than the destination entry it emits the
destination entry into the delete list and advances only the destination
pointer; if it is smaller it emits the original source entry into the
create list and advances only the source pointer; and once either pointer
is exhausted, all remaining source entries go to the create list and all
remaining destination entries to the delete list. -/
theorem c1_differ_two_pointer_merge (f : String → String)
    (st : String → String → Bool) (S D : List String)
    (_hS : List.Sorted sLt S) (_hD : List.Sorted sLt D) (i j : Nat) :
    (∀ (hi : i < S.length) (hj : j < D.length),
      (pyStrLt (D.get ⟨j, hj⟩) (f (S.get ⟨i, hi⟩)) = true →
        opsLoop f st S D i j =
          ((opsLoop f st S D i (j + 1)).1,
           D.get ⟨j, hj⟩ :: (opsLoop f st S D i (j + 1)).2)) ∧
      (pyStrLt (f (S.get ⟨i, hi⟩)) (D.get ⟨j, hj⟩) = true →
        opsLoop f st S D i j =
          (S.get ⟨i, hi⟩ :: (opsLoop f st S D (i + 1) j).1,
           (opsLoop f st S D (i + 1) j).2))) ∧
    (S.length ≤ i ∨ D.length ≤ j →
      opsLoop f st S D i j = (S.drop i, D.drop j)) := by
  constructor
  · intro hi hj
    constructor
    · intro hgt
      have hne : ¬ f (S.get ⟨i, hi⟩) = D.get ⟨j, hj⟩ := by
        intro he
        rw [he] at hgt
        rw [pyStrLt_irrefl] at hgt
        exact Bool.false_ne_true hgt
      conv_lhs => rw [opsLoop]
      rw [dif_pos ⟨hi, hj⟩, if_neg hne, if_pos hgt]
    · intro hlt
      have hne : ¬ f (S.get ⟨i, hi⟩) = D.get ⟨j, hj⟩ := by
        intro he
        rw [he] at hlt
        rw [pyStrLt_irrefl] at hlt
        exact Bool.false_ne_true hlt
      have hngt : ¬ pyStrLt (D.get ⟨j, hj⟩) (f (S.get ⟨i, hi⟩)) = true := by
        rw [pyStrLt_asymm hlt]
        exact Bool.false_ne_true
      conv_lhs => rw [opsLoop]
      rw [dif_pos ⟨hi, hj⟩, if_neg hne, if_neg hngt]
  · intro h
    conv_lhs => rw [opsLoop]
    rw [dif_neg (by rcases h with h | h <;> omega)]

theorem c1_witness :
    List.Sorted sLt ["b.a"] ∧ List.Sorted sLt ["a.z"] ∧
    pyStrLt "a.z" (remapFn (some ".z") "b.a") = true ∧
    opsLoop (remapFn (some ".z")) (fun _ _ => false) ["b.a"] ["a.z"] 0 0 =
      ((opsLoop (remapFn (some ".z")) (fun _ _ => false) ["b.a"] ["a.z"] 0 1).1,
       "a.z" :: (opsLoop (remapFn (some ".z")) (fun _ _ => false) ["b.a"] ["a.z"] 0 1).2) ∧
    opsLoop (remapFn (some ".z")) (fun _ _ => false) ["b.a"] ["a.z"] 1 0 = ([], ["a.z"]) :=
  ⟨by decide, by decide, by decide,
   ((c1_differ_two_pointer_merge (remapFn (some ".z")) (fun _ _ => false)
        ["b.a"] ["a.z"] (by decide) (by decide) 0 0).1
      (by decide) (by decide)).1 (by decide),
   (c1_differ_two_pointer_merge (remapFn (some ".z")) (fun _ _ => false)
        ["b.a"] ["a.z"] (by decide) (by decide) 1 0).2 (Or.inl (by decide))⟩

/-- C5: with an empty extension set the differ returns the empty plan at
once, for any trees (neither tree is consulted: the result does not
depend on them), any mtime flag and any target extension. -/
theorem c5_empty_extension_set (src dest : FSTree) (ign : Bool)
    (de : Option String) :
    operations_to_sync src dest ign [] de = ([], []) := rfl

/-- C7: the effective worker count is `j` when `j` is positive, otherwise
the cpu count minus `|j|`, and the result is clamped to a minimum of 1. -/
theorem c7_effective_jobs (j : Int) (c : Nat) :
    effectiveJobs j c = max 1 (if 0 < j then j else (c : Int) - j.natAbs) := by
  simp only [effectiveJobs]
  split_ifs <;> omega

/-- C6: if the converter template does not contain both `"@source"` and
`"@dest"`, `main` prints the error and exits with status 1 immediately:
no planning happens (the result does not depend on the trees) and no
filesystem mutation or other event occurs. -/
theorem c6_template_validation (a : Args) (srcT destT : FSTree) (cpu : Nat)
    (conf : Bool) (exec : List String → Int × String)
    (h : "@source" ∉ a.CONVERT_CMD ∨ "@dest" ∉ a.CONVERT_CMD) :
    mainModel a srcT destT cpu conf exec =
      ([.print "Error: CONVERT_CMD does not contain '@source' and '@dest'"],
       .exited 1) := by
  unfold mainModel
  rw [if_neg (fun hc => h.elim (fun hn => hn hc.1) (fun hn => hn hc.2))]

def argsC6 : Args where
  jobs := 0
  dry_run := false
  noconfirm := true
  verbose := false
  from_exts := "wav"
  to_ext := "mp3"
  copy_exts := none
  ignore_mtime := false
  SOURCE := "S"
  DEST := "D"
  CONVERT_CMD := ["cp", "@source"]

theorem c6_witness :
    ("@source" ∉ argsC6.CONVERT_CMD ∨ "@dest" ∉ argsC6.CONVERT_CMD) ∧
    mainModel argsC6 (FSTree.mk true [] .nil) (FSTree.mk true [] .nil) 2 true
        (fun _ => (0, "")) =
      ([.print "Error: CONVERT_CMD does not contain '@source' and '@dest'"],
       .exited 1) :=
  ⟨Or.inr (by decide),
   c6_template_validation argsC6 (FSTree.mk true [] .nil) (FSTree.mk true [] .nil)
     2 true (fun _ => (0, "")) (Or.inr (by decide))⟩

/-- C8: in the equal branch of the differ loop, the source entry is
emitted into the create list if and only if the mtime check is enabled
(`ignore_mtime` false) and the source file's mtime is strictly greater
than the destination file's; with `--ignore-mtime` a matched pair is
never emitted, whatever the timestamps; in both cases both pointers
advance. -/
theorem c8_equal_mtime_case (srcT destT : FSTree) (ign : Bool)
    (de : Option String) (S D : List String) (i j : Nat)
    (hi : i < S.length) (hj : j < D.length)
    (hEq : remapFn de (S.get ⟨i, hi⟩) = D.get ⟨j, hj⟩) :
    opsLoop (remapFn de) (staleFn srcT destT ign) S D i j =
      ((if ign = false ∧
            pathMtime srcT (S.get ⟨i, hi⟩) > pathMtime destT (D.get ⟨j, hj⟩) then
          S.get ⟨i, hi⟩ ::
            (opsLoop (remapFn de) (staleFn srcT destT ign) S D (i + 1) (j + 1)).1
        else (opsLoop (remapFn de) (staleFn srcT destT ign) S D (i + 1) (j + 1)).1),
       (opsLoop (remapFn de) (staleFn srcT destT ign) S D (i + 1) (j + 1)).2) := by
  conv_lhs => rw [opsLoop]
  rw [dif_pos ⟨hi, hj⟩, if_pos hEq]
  dsimp only
  by_cases hstale : ign = false ∧
      pathMtime srcT (S.get ⟨i, hi⟩) > pathMtime destT (D.get ⟨j, hj⟩)
  · rw [if_pos (staleFn_eq_true_iff.mpr hstale), if_pos hstale]
  · rw [if_neg (fun hc => hstale (staleFn_eq_true_iff.mp hc)), if_neg hstale]

def srcC8 : FSTree := .mk true [("a.wav", 5)] .nil

def destC8 : FSTree := .mk true [("a.mp3", 3)] .nil

theorem c8_witness :
    remapFn (some ".mp3") "a.wav" = "a.mp3" ∧
    (false = false ∧ pathMtime srcC8 "a.wav" > pathMtime destC8 "a.mp3") ∧
    opsLoop (remapFn (some ".mp3")) (staleFn srcC8 destC8 false)
        ["a.wav"] ["a.mp3"] 0 0 =
      ("a.wav" ::
        (opsLoop (remapFn (some ".mp3")) (staleFn srcC8 destC8 false)
          ["a.wav"] ["a.mp3"] 1 1).1,
       (opsLoop (remapFn (some ".mp3")) (staleFn srcC8 destC8 false)
          ["a.wav"] ["a.mp3"] 1 1).2) := by
  refine ⟨by decide, ⟨rfl, by decide⟩, ?_⟩
  have h := c8_equal_mtime_case srcC8 destC8 false (some ".mp3")
    ["a.wav"] ["a.mp3"] 0 0 (by decide) (by decide) (by decide)
  rw [h, if_pos ⟨rfl, by decide⟩]
  rfl

def srcC9 : FSTree := .mk true [("b.a", 0), ("b.b.z", 0)] .nil

def destC9 : FSTree := .mk true [("b.b.z", 0)] .nil

/-- C9 counterexample: with source files `b.a` and `b.b.z` (tracked
extensions `.a` and `.z`) converted to target extension `.z`, both
listings are sorted, yet `b.b.z` appears in the create list AND in the
delete list of the same plan.  The remap `replace_ext(-, ".z")` does not
preserve the source order (`b.a < b.b.z` as strings but their remapped
forms satisfy `b.z > b.b.z`), so the merge deletes the destination
`b.b.z` and then recreates it from the identical source path. -/
theorem c9_counterexample :
    List.Sorted sLt (sorted_filtered_paths srcC9 [".a", ".z"]) ∧
    List.Sorted sLt
      (sorted_filtered_paths destC9 (destFilterExts [".a", ".z"] (some ".z"))) ∧
    "b.b.z" ∈ (operations_to_sync srcC9 destC9 true [".a", ".z"] (some ".z")).1 ∧
    "b.b.z" ∈ (operations_to_sync srcC9 destC9 true [".a", ".z"] (some ".z")).2 := by
  refine ⟨by decide, by decide, ?_, ?_⟩
  all_goals rw [operations_to_sync_eq]
  all_goals decide

/-- C9 (amended): the differ output always draws create entries from the
source listing and delete entries from the destination listing; and
whenever the extension remap keeps the (sorted) source listing sorted and
fixes every destination entry — as holds e.g. for the identity remap of
copy plans — no path appears in both the create list and the delete list.
As claimed for arbitrary remaps the property fails (see the
counterexample): a remap that reorders the source listing can put the
same path in both lists. -/
theorem c9_amended_disjoint (f : String → String) (st : String → String → Bool)
    (S D : List String) (hS : List.Sorted sLt S) (hD : List.Sorted sLt D)
    (hmap : List.Sorted sLe (S.map f)) (hfix : ∀ d ∈ D, f d = d) :
    (∀ x ∈ (opsLoop f st S D 0 0).1, x ∈ S) ∧
    (∀ x ∈ (opsLoop f st S D 0 0).2, x ∈ D) ∧
    (∀ x, ¬ (x ∈ (opsLoop f st S D 0 0).1 ∧ x ∈ (opsLoop f st S D 0 0).2)) := by
  rw [opsLoop_eq_mergeOps, List.drop_zero, List.drop_zero]
  exact ⟨fun x hx => mergeOps_create_subset f st S D x hx,
    fun x hx => mergeOps_delete_subset f st S D x hx,
    fun x hx => mergeOps_disjoint f st S hS hmap D hD hfix x hx.1 hx.2⟩

theorem c9_witness :
    List.Sorted sLt ["a.wav", "b.wav"] ∧
    List.Sorted sLt ["a.mp3", "c.mp3"] ∧
    List.Sorted sLe (["a.wav", "b.wav"].map (remapFn (some ".mp3"))) ∧
    (∀ d ∈ (["a.mp3", "c.mp3"] : List String), remapFn (some ".mp3") d = d) ∧
    (∀ x, ¬ (x ∈ (opsLoop (remapFn (some ".mp3")) (fun _ _ => false)
                    ["a.wav", "b.wav"] ["a.mp3", "c.mp3"] 0 0).1 ∧
             x ∈ (opsLoop (remapFn (some ".mp3")) (fun _ _ => false)
                    ["a.wav", "b.wav"] ["a.mp3", "c.mp3"] 0 0).2)) :=
  ⟨by decide, by decide, by decide, by decide,
   (c9_amended_disjoint (remapFn (some ".mp3")) (fun _ _ => false)
      ["a.wav", "b.wav"] ["a.mp3", "c.mp3"]
      (by decide) (by decide) (by decide) (by decide)).2.2⟩

def argsC2 : Args where
  jobs := 1
  dry_run := true
  noconfirm := true
  verbose := false
  from_exts := "wav"
  to_ext := "mp3"
  copy_exts := some "ogg"
  ignore_mtime := true
  SOURCE := "S"
  DEST := "D"
  CONVERT_CMD := ["conv", "@source", "@dest"]

def srcC2 : FSTree := .mk true [] (.cons "sub" (.mk true [("a.ogg", 0)] .nil) .nil)

def destC2 : FSTree := .mk true [] .nil

/-- C2 (code bug): simulation mode does mutate the filesystem.  With
`--dry-run`, a copy-plan entry `sub/a.ogg` and a destination tree that
contains no `sub` directory, the run still calls
`os.makedirs("D/sub", exist_ok=True)`: the `os.makedirs` on line 177
precedes the `if args.dry_run: continue` on line 178 of the copy loop,
so the destination directory is created during a dry run, contradicting
"simulation mode never mutates the filesystem". -/
theorem c2_dry_run_creates_directory :
    argsC2.dry_run = true ∧
    destC2 = FSTree.mk true [] .nil ∧
    Event.makedirs "D/sub" ∈
      (mainModel argsC2 srcC2 destC2 4 true (fun _ => (0, ""))).1 ∧
    (mainModel argsC2 srcC2 destC2 4 true (fun _ => (0, ""))).2 = .ok := by
  refine ⟨rfl, rfl, ?_, ?_⟩
  all_goals simp only [mainModel, operations_to_sync_eq]
  all_goals decide

def treeC3 : FSTree :=
  .mk true [] (.cons "a-b" (.mk true [("c.wav", 0)] .nil)
    (.cons "a" (.mk true [("b.wav", 0)] .nil) .nil))

/-- The ordering the specification asserts for the classifier output,
written from the spec's words: lexicographic over path-component
sequences, ascending, components compared in Python string order.  Kept
only to compare against what the code actually does. -/
def specComponentLt (p q : List String) : Prop :=
  List.Lex sLt p q

/-- C3 counterexample: the classifier sorts by the relative-path string,
not by path-component sequences.  `a-b/c.wav` sorts before `a/b.wav` as
strings (codepoint of `-` is below `/`), yet the component sequence
`["a", "b.wav"]` strictly precedes `["a-b", "c.wav"]` in the claimed
component-sequence order, so the returned listing is not sorted by
path-component sequences. -/
theorem c3_counterexample :
    sorted_filtered_paths treeC3 [".wav"] = ["a-b/c.wav", "a/b.wav"] ∧
    specComponentLt (splitStr '/' "a/b.wav") (splitStr '/' "a-b/c.wav") := by
  constructor
  · decide
  · have h1 : splitStr '/' "a/b.wav" = ["a", "b.wav"] := by decide
    have h2 : splitStr '/' "a-b/c.wav" = ["a-b", "c.wav"] := by decide
    unfold specComponentLt
    rw [h1, h2]
    exact List.Lex.rel (by decide)

/-- C3 (amended): the classifier returns exactly the relative paths of
the regular files reachable through readable directories whose filename
extension is in the set; the output is sorted ascending in Python string
order over the whole relative-path string (not over path-component
sequences, which can disagree — see the counterexample); and the listing
is canonical: it depends only on the multiset of walk entries, hence is
the same however the walk happens to order its traversal of an unchanged
tree. -/
theorem c3_classifier_amended (t : FSTree) (exts : List String) :
    (∀ p, p ∈ sorted_filtered_paths t exts ↔
      p ∈ (t.walkEntries.filter
            (fun e => exts.contains (pyExt e.2))).map entryPath) ∧
    List.Sorted sLe (sorted_filtered_paths t exts) ∧
    (∀ t2 : FSTree, List.Perm t.walkEntries t2.walkEntries →
      sorted_filtered_paths t exts = sorted_filtered_paths t2 exts) := by
  refine ⟨?_, pySort_sorted _, ?_⟩
  · intro p
    exact (pySort_perm _).mem_iff
  · intro t2 hperm
    exact pySort_eq_of_perm (List.Perm.map entryPath
      (List.Perm.filter _ hperm))

def treeC3a : FSTree := .mk true [("b.wav", 0), ("a.wav", 0)] .nil

def treeC3b : FSTree := .mk true [("a.wav", 0), ("b.wav", 0)] .nil

theorem c3_witness :
    List.Perm treeC3a.walkEntries treeC3b.walkEntries ∧
    sorted_filtered_paths treeC3a [".wav"] = sorted_filtered_paths treeC3b [".wav"] ∧
    ("a.wav" ∈ sorted_filtered_paths treeC3a [".wav"] ↔
      "a.wav" ∈ (treeC3a.walkEntries.filter
        (fun e => [".wav"].contains (pyExt e.2))).map entryPath) := by
  have e1 : FSTree.walkEntries treeC3a = [([], "b.wav"), ([], "a.wav")] := by decide
  have e2 : FSTree.walkEntries treeC3b = [([], "a.wav"), ([], "b.wav")] := by decide
  have hp : List.Perm treeC3a.walkEntries treeC3b.walkEntries := by
    rw [e1, e2]
    exact List.Perm.swap ([], "a.wav") ([], "b.wav") []
  exact ⟨hp, (c3_classifier_amended treeC3a [".wav"]).2.2 treeC3b hp,
    (c3_classifier_amended treeC3a [".wav"]).1 "a.wav"⟩

def treeC4 : FSTree :=
  .mk true [("a.wav", 0)] (.cons "locked" (.mk false [("x.wav", 0)] .nil) .nil)

/-- C4 counterexample: a tree whose subdirectory `locked` is unreadable
but contains a tracked file `x.wav`.  The listing does not fail: it
returns the partial listing `["a.wav"]`, silently omitting the file
under the unreadable directory — `os.walk` is called with the default
`onerror=None`, which ignores the `scandir` error and skips the
directory, so no exception ever propagates out of the listing. -/
theorem c4_counterexample :
    sorted_filtered_paths treeC4 [".wav"] = ["a.wav"] ∧
    "locked/x.wav" ∉ sorted_filtered_paths treeC4 [".wav"] := by
  constructor
  · decide
  · decide

/-- C4 (amended): an unreadable directory does not fail the whole
listing; it is silently skipped: the listing of a tree containing an
unreadable subdirectory (whatever its contents) equals the listing of
the same tree with that subdirectory removed, i.e. the caller gets a
partial listing and no error. -/
theorem c4_unreadable_skipped (rd : Bool) (files : List (String × Int))
    (name : String) (badFiles : List (String × Int)) (badSubs : FSForest)
    (subs : FSForest) (exts : List String) :
    sorted_filtered_paths
        (.mk rd files (.cons name (.mk false badFiles badSubs) subs)) exts =
      sorted_filtered_paths (.mk rd files subs) exts := by
  unfold sorted_filtered_paths
  simp [FSTree.walkEntries, FSForest.walkEntries]

/-- C10: `ensure_dot_prefix` is partial: on the empty string it raises
(an IndexError from `s[0]`, modelled by `none`) instead of returning a
value; on every non-empty input it returns a value that begins with `"."`
and it is idempotent; and a configuration whose `--from` list contains an
empty token (e.g. a trailing comma) aborts the run during normalization,
before any planning: for every tree, the outcome is the raised exception
with an empty event trace. -/
theorem c10_ensure_dot :
    ensure_dot_prefix "" = none ∧
    (∀ s : String, s ≠ "" → ∃ t, ensure_dot_prefix s = some t ∧
      t.data.head? = some '.' ∧ ensure_dot_prefix t = some t) ∧
    (∀ (a : Args) (srcT destT : FSTree) (cpu : Nat) (conf : Bool)
        (exec : List String → Int × String),
      "@source" ∈ a.CONVERT_CMD → "@dest" ∈ a.CONVERT_CMD →
      "" ∈ splitStr ',' a.from_exts →
      mainModel a srcT destT cpu conf exec = ([], .raised)) := by
  refine ⟨rfl, ?_, ?_⟩
  · intro s hs
    cases s with
    | mk data =>
      cases data with
      | nil => exact absurd rfl hs
      | cons c cs =>
        by_cases hc : c = '.'
        · refine ⟨String.mk (c :: cs), ?_, ?_, ?_⟩
          · simp [ ensure_dot_prefix, hc]
          · simp [hc]
          · simp [ ensure_dot_prefix, hc]
        · refine ⟨String.mk ('.' :: c :: cs), ?_, ?_, ?_⟩
          · simp [ ensure_dot_prefix, hc]
          · simp
          · simp [ ensure_dot_prefix]
  · intro a srcT destT cpu conf exec h1 h2 h3
    unfold mainModel
    rw [if_pos ⟨h1, h2⟩]
    cases ensure_dot_prefix a.to_ext with
    | none => rfl
    | some te => rw [normalizeExts_none h3]

def argsC10 : Args where
  jobs := 0
  dry_run := false
  noconfirm := false
  verbose := false
  from_exts := "wav,"
  to_ext := "mp3"
  copy_exts := none
  ignore_mtime := false
  SOURCE := "S"
  DEST := "D"
  CONVERT_CMD := ["c", "@source", "@dest"]

theorem c10_witness :
    ("mp3" : String) ≠ "" ∧
    (∃ t, ensure_dot_prefix "mp3" = some t ∧ t.data.head? = some '.' ∧
      ensure_dot_prefix t = some t) ∧
    "" ∈ splitStr ',' argsC10.from_exts ∧
    mainModel argsC10 (FSTree.mk true [] .nil) (FSTree.mk true [] .nil) 1 true
        (fun _ => (0, "")) = ([], .raised) :=
  ⟨by decide, c10_ensure_dot.2.1 "mp3" (by decide), by decide,
   c10_ensure_dot.2.2 argsC10 (FSTree.mk true [] .nil) (FSTree.mk true [] .nil)
     1 true (fun _ => (0, "")) (by decide) (by decide) (by decide)⟩
